import Mathlib

/-!
Shallow embedding of the JustCMS Angular client
(just-cms.service.ts and just-cms.config.ts).

The service is a thin typed wrapper over the JustCMS public REST API:
it validates its configuration at construction time, builds GET requests
(URL, bearer-token header, string-serialized query parameters), maps
transport failures to one normalized error message, and offers four pure
utility functions over the returned data shapes.

Modelling conventions used throughout:
- A JavaScript value that may be undefined is an Option; absent and
  undefined coincide.
- JavaScript string truthiness (empty string is falsy) is made explicit
  wherever the source relies on it.
- Angular HttpParams is modelled as an ordered association list; the
  set operation appends, which is faithful here because every call site
  uses pairwise-distinct keys.
- String.toLowerCase is modelled by mapping an ASCII lower-casing over
  the characters; the two agree on the ASCII range, which covers every
  style tag and slug in the claims.
- Observables are single-shot here: a transport outcome is either a
  success body or an HttpErrorResponse, and a client call maps it to an
  Except whose error is the normalized message.
-/

/-! ## Data model (just-cms.service.ts interfaces) -/

structure Category where
  name : String
  slug : String
deriving Repr, DecidableEq

structure CategoriesResponse where
  categories : List Category
deriving Repr, DecidableEq

structure ImageVariant where
  url : String
  width : Int
  height : Int
  filename : String
deriving Repr, DecidableEq

structure Image where
  alt : String
  variants : List ImageVariant
deriving Repr, DecidableEq

structure PageSummary where
  title : String
  subtitle : String
  coverImage : Option Image
  slug : String
  categories : List Category
  createdAt : String
  updatedAt : String
deriving Repr, DecidableEq

structure PagesResponse where
  items : List PageSummary
  total : Int
deriving Repr, DecidableEq

structure ListBlockOption where
  title : String
  subtitle : Option String
deriving Repr, DecidableEq

/-- Content blocks: a closed tagged union discriminated by its type tag.
The custom variant's open index signature carries no data relevant to any
verified property and is modelled by its declared blockId field alone. -/
inductive ContentBlock where
  | header (styles : List String) (header : String) (subheader : Option String) (size : String)
  | list (styles : List String) (options : List ListBlockOption)
  | embed (styles : List String) (url : String)
  | image (styles : List String) (images : List Image)
  | code (styles : List String) (code : String)
  | text (styles : List String) (text : String)
  | cta (styles : List String) (text : String) (url : String) (description : Option String)
  | custom (styles : List String) (blockId : String)
deriving Repr, DecidableEq

structure PageMeta where
  title : String
  description : String
deriving Repr, DecidableEq

structure PageDetail where
  title : String
  subtitle : String
  meta : PageMeta
  coverImage : Option Image
  slug : String
  categories : List Category
  content : List ContentBlock
  createdAt : String
  updatedAt : String
deriving Repr, DecidableEq

structure CategoryFilter where
  slug : String
deriving Repr, DecidableEq

structure PageFilters where
  category : CategoryFilter
deriving Repr, DecidableEq

/-! ## Configuration (just-cms.config.ts) and construction-time checks -/

/-- The configuration record held by a successfully constructed service. -/
structure JustCmsConfig where
  apiToken : String
  projectId : String
deriving Repr, DecidableEq

/-- The configuration as the embedding application may actually supply it:
either field may be absent (none) or any string, including empty. -/
structure JustCmsRawConfig where
  apiToken : Option String
  projectId : Option String
deriving Repr, DecidableEq

/-- JavaScript truthiness of a possibly-absent string: undefined and the
empty string are falsy, every other string is truthy. -/
def jsTruthy : Option String → Bool
  | none => false
  | some s => s ≠ ""

/-- Constructor of JustCmsService: throws on a falsy apiToken, then on a
falsy projectId, otherwise yields the validated configuration. -/
def mkJustCmsService (c : JustCmsRawConfig) : Except String JustCmsConfig :=
  if !jsTruthy c.apiToken then
    Except.error "JustCMS API token is required"
  else if !jsTruthy c.projectId then
    Except.error "JustCMS project ID is required"
  else
    Except.ok { apiToken := c.apiToken.getD "", projectId := c.projectId.getD "" }

/-! ## Request construction (the private get helper) -/

def BASE_URL : String := "https://api.justcms.co/public"

/-- A JavaScript value as it may appear in the query record
(Record String any at the get helper's boundary). -/
inductive JsVal where
  | str (s : String)
  | num (n : Int)
  | nullv
  | undef
deriving Repr, DecidableEq

/-- The guard value not-equal-undefined and not-equal-null. -/
def JsVal.isPresent : JsVal → Bool
  | .nullv => false
  | .undef => false
  | _ => true

/-- JavaScript String(value) coercion for the values that occur here. -/
def JsVal.toJsString : JsVal → String
  | .str s => s
  | .num n => toString n
  | .nullv => "null"
  | .undef => "undefined"

/-- An outgoing HTTP GET request as assembled by the get helper:
final URL, header list, and string-serialized query parameters in
insertion order. -/
structure HttpRequest where
  url : String
  headers : List (String × String)
  params : List (String × String)
deriving Repr, DecidableEq

/-- The private get helper: builds BASE_URL/projectId, appends /endpoint
only when the endpoint string is truthy, keeps exactly the query entries
whose value is neither undefined nor null (string-serialized), and sets
the bearer Authorization header. -/
def buildGetRequest (config : JustCmsConfig) (endpoint : String)
    (queryParams : List (String × JsVal)) : HttpRequest :=
  { url := BASE_URL ++ "/" ++ config.projectId ++
      (if endpoint = "" then "" else "/" ++ endpoint)
    headers := [("Authorization", "Bearer " ++ config.apiToken)]
    params := queryParams.filterMap fun kv =>
      if kv.2.isPresent then some (kv.1, kv.2.toJsString) else none }

/-! ## Error normalization (the catchError branch of get) -/

structure HttpErrorResponse where
  status : Nat
  message : String
deriving Repr, DecidableEq

/-- The normalized error message produced by the catchError branch. -/
def normalizeError (e : HttpErrorResponse) : String :=
  "JustCMS API error " ++ toString e.status ++ ": " ++ e.message

/-- Outcome of the underlying transport for one single-shot request. -/
inductive HttpOutcome (T : Type) where
  | success (body : T)
  | failure (e : HttpErrorResponse)

/-- What the get helper emits for a given transport outcome: the body on
success, the normalized error on any transport failure. -/
def handleTransport {T : Type} : HttpOutcome T → Except String T
  | .success b => Except.ok b
  | .failure e => Except.error (normalizeError e)

/-- Substring containment, used to state the observable error contract. -/
def strContains (s sub : String) : Prop :=
  ∃ a b, s = a ++ sub ++ b

/-! ## Public request-issuing operations -/

/-- getCategories issues get() with no endpoint and no query. -/
def getCategoriesRequest (config : JustCmsConfig) : HttpRequest :=
  buildGetRequest config "" []

/-- getCategories maps the transport result by unwrapping the categories
field of the response body. -/
def getCategoriesResult (o : HttpOutcome CategoriesResponse) :
    Except String (List Category) :=
  (handleTransport o).map fun r => r.categories

/-- The optional argument object of getPages. -/
structure GetPagesParams where
  filters : Option PageFilters
  start : Option Int
  offset : Option Int
deriving Repr, DecidableEq

/-- The query record getPages assembles, in insertion order: the category
filter only when the slug chain is truthy, then start and offset only
when defined. -/
def getPagesQuery (params : Option GetPagesParams) : List (String × JsVal) :=
  match params with
  | none => []
  | some p =>
    (match p.filters with
     | some f =>
       if f.category.slug = "" then []
       else [("filter.category.slug", JsVal.str f.category.slug)]
     | none => []) ++
    (match p.start with
     | some n => [("start", JsVal.num n)]
     | none => []) ++
    (match p.offset with
     | some n => [("offset", JsVal.num n)]
     | none => [])

/-- getPages issues get(pages, query). -/
def getPagesRequest (config : JustCmsConfig) (params : Option GetPagesParams) :
    HttpRequest :=
  buildGetRequest config "pages" (getPagesQuery params)

/-- getPageBySlug issues get(pages/slug, query) where the query carries v
only when the version argument is truthy. -/
def getPageBySlugRequest (config : JustCmsConfig) (slug : String)
    (version : Option String) : HttpRequest :=
  buildGetRequest config ("pages/" ++ slug)
    (if jsTruthy version then [("v", JsVal.str (version.getD ""))] else [])

/-- getMenuById issues get(menus/id). -/
def getMenuByIdRequest (config : JustCmsConfig) (id : String) : HttpRequest :=
  buildGetRequest config ("menus/" ++ id) []

/-! ## Pure utility methods -/

/-- The argument shape of isBlockHasStyle: anything with a styles list. -/
structure StyledBlock where
  styles : List String
deriving Repr, DecidableEq

/-- Model of JavaScript toLowerCase on the ASCII range: each character
in the range A to Z is shifted to its lower-case counterpart. -/
def jsCharToLower (c : Char) : Char :=
  if 65 ≤ c.toNat ∧ c.toNat ≤ 90 then Char.ofNat (c.toNat + 32) else c

/-- Model of JavaScript String.prototype.toLowerCase. -/
def jsToLowerCase (s : String) : String :=
  String.mk (s.data.map jsCharToLower)

/-- isBlockHasStyle: lower-cases every style of the block and the query
style, then tests membership. -/
def isBlockHasStyle (block : StyledBlock) (style : String) : Bool :=
  (block.styles.map jsToLowerCase).contains (jsToLowerCase style)

/-- getLargeImageVariant: the element of variants at index 1, absent when
the list is too short. -/
def getLargeImageVariant (image : Image) : Option ImageVariant :=
  image.variants[1]?

/-- The argument shape of getFirstImage; the source guards against an
absent images field, so the field is optional here. -/
structure ImageBlockArg where
  images : Option (List Image)
deriving Repr, DecidableEq

/-- getFirstImage: the first element of the images sequence when it is
present and non-empty, absent otherwise. -/
def getFirstImage (block : ImageBlockArg) : Option Image :=
  match block.images with
  | some l => if l.length > 0 then l[0]? else none
  | none => none

/-- hasCategory: exact membership of the slug among the slugs of the
page's categories. -/
def hasCategory (page : PageDetail) (categorySlug : String) : Bool :=
  (page.categories.map Category.slug).contains categorySlug

/-! ## Helper lemmas -/

lemma append_ne_empty_left (a s : String) (h : a.length ≠ 0) : (a ++ s) ≠ "" := by
  intro he
  have h2 := congrArg String.length he
  rw [String.length_append] at h2
  simp at h2
  omega

lemma slash_lit (a b : String) (h : "/" ++ a = b) (s : String) :
    "/" ++ (a ++ s) = b ++ s := by
  rw [← String.append_assoc, h]

/-- Closed form of the serialized query parameter list of a getPages call
with an argument object, in insertion order. -/
lemma getPagesRequest_some_params (config : JustCmsConfig) (p : GetPagesParams) :
    (getPagesRequest config (some p)).params =
      (match p.filters with
       | some f =>
         if f.category.slug = "" then []
         else [("filter.category.slug", f.category.slug)]
       | none => []) ++
      (match p.start with
       | some n => [("start", toString n)]
       | none => []) ++
      (match p.offset with
       | some n => [("offset", toString n)]
       | none => []) := by
  rcases p with ⟨f, s, o⟩
  rcases f with _ | f <;> rcases s with _ | s <;> rcases o with _ | o <;>
    simp [getPagesRequest, buildGetRequest, getPagesQuery, List.filterMap_append] <;>
    (try split) <;> simp [JsVal.isPresent, JsVal.toJsString]

/-! ## Claim theorems -/

/-- C1: The getPages query parameters filter.category.slug, start and
offset are included only when the corresponding source value is defined
(and, for the slug, truthy), every included value is string-serialized,
a call with no arguments includes none of them, and the concrete call
with slug blog, start 10, offset 5 produces a GET to
BASE_URL/projectId/pages carrying exactly those three parameters. -/
theorem getPages_query_param_contract (config : JustCmsConfig) :
    (getPagesRequest config none).params = [] ∧
    getPagesRequest config (some ⟨some ⟨⟨"blog"⟩⟩, some 10, some 5⟩) =
      { url := BASE_URL ++ "/" ++ config.projectId ++ "/pages"
        headers := [("Authorization", "Bearer " ++ config.apiToken)]
        params := [("filter.category.slug", "blog"), ("start", "10"), ("offset", "5")] } ∧
    (∀ (p : GetPagesParams) (v : String),
        ("filter.category.slug", v) ∈ (getPagesRequest config (some p)).params ↔
          ∃ f, p.filters = some f ∧ f.category.slug = v ∧ v ≠ "") ∧
    (∀ (p : GetPagesParams) (v : String),
        ("start", v) ∈ (getPagesRequest config (some p)).params ↔
          ∃ n : Int, p.start = some n ∧ v = toString n) ∧
    (∀ (p : GetPagesParams) (v : String),
        ("offset", v) ∈ (getPagesRequest config (some p)).params ↔
          ∃ n : Int, p.offset = some n ∧ v = toString n) := by
  refine ⟨rfl, ?_, ?_, ?_, ?_⟩
  · simp +decide [getPagesRequest, buildGetRequest, getPagesQuery,
      JsVal.isPresent, JsVal.toJsString, HttpRequest.mk.injEq]
  · intro p v
    rw [getPagesRequest_some_params]
    rcases p with ⟨f, s, o⟩
    rcases f with _ | f <;> rcases s with _ | s <;> rcases o with _ | o <;>
      simp +decide <;> simp_all +decide [eq_comm] <;> aesop
  · intro p v
    rw [getPagesRequest_some_params]
    rcases p with ⟨f, s, o⟩
    rcases f with _ | f <;> rcases s with _ | s <;> rcases o with _ | o <;>
      simp +decide [eq_comm]
  · intro p v
    rw [getPagesRequest_some_params]
    rcases p with ⟨f, s, o⟩
    rcases f with _ | f <;> rcases s with _ | s <;> rcases o with _ | o <;>
      simp +decide [eq_comm]

/-- C2: Construction fails on a falsy apiToken with the token message,
separately fails on a falsy projectId with the project message, and the
two messages are distinct. The model constructor performs no request
construction at all, so both checks precede any network activity. -/
theorem constructor_config_validation :
    (∀ c : JustCmsRawConfig, jsTruthy c.apiToken = false →
        mkJustCmsService c = Except.error "JustCMS API token is required") ∧
    (∀ c : JustCmsRawConfig, jsTruthy c.apiToken = true →
        jsTruthy c.projectId = false →
        mkJustCmsService c = Except.error "JustCMS project ID is required") ∧
    "JustCMS API token is required" ≠ "JustCMS project ID is required" := by
  refine ⟨fun c h => ?_, fun c h1 h2 => ?_, by decide⟩
  · simp [mkJustCmsService, h]
  · simp [mkJustCmsService, h1, h2]

/-- C2 witness: concrete absent and empty tokens, and an empty project id. -/
theorem constructor_config_validation_witness :
    mkJustCmsService ⟨none, some "proj"⟩ =
      Except.error "JustCMS API token is required" ∧
    mkJustCmsService ⟨some "", some "proj"⟩ =
      Except.error "JustCMS API token is required" ∧
    mkJustCmsService ⟨some "tok", some ""⟩ =
      Except.error "JustCMS project ID is required" :=
  ⟨constructor_config_validation.1 _ (by decide),
   constructor_config_validation.1 _ (by decide),
   constructor_config_validation.2.1 _ (by decide) (by decide)⟩

/-- C3: Every transport failure is re-raised as one normalized error of
the exact form JustCMS API error status: message, with no further
classification; for status 404 with message Not Found the surfaced
message contains both 404 and Not Found. -/
theorem transport_error_normalization :
    (∀ e : HttpErrorResponse,
        normalizeError e =
          "JustCMS API error " ++ toString e.status ++ ": " ++ e.message) ∧
    (∀ (T : Type) (e : HttpErrorResponse),
        @handleTransport T (HttpOutcome.failure e) = Except.error (normalizeError e)) ∧
    (∀ e : HttpErrorResponse,
        getCategoriesResult (HttpOutcome.failure e) = Except.error (normalizeError e)) ∧
    normalizeError ⟨404, "Not Found"⟩ = "JustCMS API error 404: Not Found" ∧
    strContains (normalizeError ⟨404, "Not Found"⟩) "404" ∧
    strContains (normalizeError ⟨404, "Not Found"⟩) "Not Found" :=
  ⟨fun _ => rfl, fun _ _ => rfl, fun _ => rfl, by decide,
   ⟨"JustCMS API error ", ": Not Found", by decide⟩,
   ⟨"JustCMS API error 404: ", "", by decide⟩⟩

/-- C4: getCategories issues a single GET to BASE_URL/projectId with no
endpoint suffix, no query parameters, and the bearer Authorization
header, and on success returns exactly the categories array of the
response body. -/
theorem getCategories_request_and_unwrap (config : JustCmsConfig) :
    (getCategoriesRequest config).url = BASE_URL ++ "/" ++ config.projectId ∧
    (getCategoriesRequest config).headers =
      [("Authorization", "Bearer " ++ config.apiToken)] ∧
    (getCategoriesRequest config).params = [] ∧
    ∀ r : CategoriesResponse,
      getCategoriesResult (HttpOutcome.success r) = Except.ok r.categories := by
  refine ⟨?_, rfl, rfl, fun r => rfl⟩
  simp [getCategoriesRequest, buildGetRequest]

/-- C5: getPageBySlug issues a GET to BASE_URL/projectId/pages/slug,
carries no v parameter when no version is given, and carries exactly
v=version when a truthy version is given. -/
theorem getPageBySlug_request_shape (config : JustCmsConfig) (slug : String) :
    (∀ version : Option String,
        (getPageBySlugRequest config slug version).url =
          BASE_URL ++ "/" ++ config.projectId ++ "/pages/" ++ slug) ∧
    (getPageBySlugRequest config slug none).params = [] ∧
    ∀ v : String, v ≠ "" →
      (getPageBySlugRequest config slug (some v)).params = [("v", v)] := by
  refine ⟨?_, rfl, ?_⟩
  · intro version
    simp only [getPageBySlugRequest, buildGetRequest]
    rw [if_neg (append_ne_empty_left _ _ (by decide)),
      slash_lit "pages/" "/pages/" (by decide), ← String.append_assoc]
  · intro v hv
    simp [getPageBySlugRequest, buildGetRequest, jsTruthy, hv,
      JsVal.isPresent, JsVal.toJsString]

/-- C5 witness: a draft version on a concrete slug yields exactly v=draft. -/
theorem getPageBySlug_request_shape_witness :
    (getPageBySlugRequest ⟨"tok", "proj"⟩ "about-us" (some "draft")).params =
      [("v", "draft")] :=
  (getPageBySlug_request_shape ⟨"tok", "proj"⟩ "about-us").2.2 "draft" (by decide)

/-- C6: isBlockHasStyle lower-cases both sides and tests membership: it
returns true exactly when the lower-cased style occurs among the
lower-cased styles of the block, and the two concrete examples behave as
claimed. Totality is inherent: the function is a Lean function into Bool. -/
theorem isBlockHasStyle_case_insensitive :
    (∀ (block : StyledBlock) (style : String),
        isBlockHasStyle block style = true ↔
          jsToLowerCase style ∈ block.styles.map jsToLowerCase) ∧
    isBlockHasStyle ⟨["Highlight", "Bold"]⟩ "highlight" = true ∧
    isBlockHasStyle ⟨["Bold"]⟩ "highlight" = false := by
  refine ⟨fun b s => ?_, by decide, by decide⟩
  simp [isBlockHasStyle]

/-- C7: getLargeImageVariant returns the element at index 1 whenever the
variants list has at least two elements, returns none whenever it has
fewer than two, and equals positional lookup at index 1, so it never
inspects width or height. -/
theorem getLargeImageVariant_index_one :
    (∀ (alt : String) (v0 v1 : ImageVariant) (rest : List ImageVariant),
        getLargeImageVariant ⟨alt, v0 :: v1 :: rest⟩ = some v1) ∧
    (∀ img : Image, img.variants.length < 2 → getLargeImageVariant img = none) ∧
    (∀ img : Image, getLargeImageVariant img = img.variants[1]?) := by
  refine ⟨?_, ?_, fun img => rfl⟩
  · intro alt v0 v1 rest
    simp [getLargeImageVariant]
  · intro img h
    rcases img with ⟨alt, _ | ⟨a, _ | ⟨b, t⟩⟩⟩
    · rfl
    · rfl
    · simp at h
      omega

/-- C7 witness: a single-variant image yields an absent result. -/
theorem getLargeImageVariant_index_one_witness :
    getLargeImageVariant ⟨"cover", [⟨"u", 10, 10, "f"⟩]⟩ = none :=
  getLargeImageVariant_index_one.2.1 _ (by decide)

/-- C8: hasCategory returns true exactly when the given slug matches, by
exact string equality, the slug of some category of the page. -/
theorem hasCategory_exact_membership (page : PageDetail) (slug : String) :
    hasCategory page slug = true ↔ ∃ c ∈ page.categories, c.slug = slug := by
  simp [hasCategory]

/-- C9: getFirstImage returns the first element of a present non-empty
images sequence and an absent result for an empty or missing sequence. -/
theorem getFirstImage_first_or_none :
    (∀ (i : Image) (rest : List Image),
        getFirstImage ⟨some (i :: rest)⟩ = some i) ∧
    getFirstImage ⟨some []⟩ = none ∧
    getFirstImage ⟨none⟩ = none := by
  refine ⟨?_, rfl, rfl⟩
  intro i rest
  simp [getFirstImage]

/-- C10: An empty string behaves as absent at the public interface: an
empty category slug yields the same request as no filter at all, and an
empty version yields the same request as no version. -/
theorem empty_string_params_omitted (config : JustCmsConfig) :
    (∀ (start offset : Option Int),
        getPagesRequest config (some ⟨some ⟨⟨""⟩⟩, start, offset⟩) =
          getPagesRequest config (some ⟨none, start, offset⟩)) ∧
    ∀ slug : String,
      getPageBySlugRequest config slug (some "") =
        getPageBySlugRequest config slug none :=
  ⟨fun _ _ => rfl, fun _ => rfl⟩
